import Mathlib

/-!
Shallow embedding of the key-name engine of the libelektra fork
(src/src/libelektra/keyname.c) together with the helper routines it calls.

Conventions of the embedding:

* A C string (`char *` content up to, but excluding, the terminating NUL)
  is a `Str := List Char`; by construction the strings fed to the API
  contain no interior NUL bytes.
* A heap buffer is a `Buf := List (Option Char)`; `none` stands for a byte
  whose value the C program never defined (memory past the end of a string
  copied by `elektraStrNDup`, bytes left over after a `realloc`, ...).
  Reads of such bytes surface as `none` instead of an arbitrary value.
* A `Key` keeps the fields of the C struct that the name engine touches:
  the name buffer `key` (with the escaped name at offset `0` and the
  unescaped name at offset `keySize`, exactly as in the C code),
  the sizes `keySize` / `keyUSize`, and the two flags used here,
  `KEY_FLAG_RO_NAME` (`roName`) and `KEY_FLAG_SYNC` (`sync`).
* C functions that take a `Key *` and return `ssize_t` while mutating the
  key become functions `Key → ... → Int × Key`.  NULL string arguments are
  modelled with `Option Str`.
* Allocation never fails in the model (the out-of-memory branches of the C
  code are unreachable here).
-/

set_option autoImplicit false

namespace Elektra

/-- The NUL byte. -/
def nul : Char := Char.ofNat 0

/-- Content of a C string (an interior-NUL-free byte sequence). -/
abbrev Str := List Char

/-- A heap buffer; `none` marks a byte the C program never defined. -/
abbrev Buf := List (Option Char)

/-- Convenience: the characters of a Lean string literal. -/
def str (s : String) : Str := s.toList

/-- Read one byte of a buffer (`none` when undefined or out of range). -/
def bufRead (b : Buf) (i : Nat) : Option Char :=
  (b.getD i none)

/-- Write one byte at position `i`, padding with undefined bytes if the
buffer is shorter (the C code only does this inside a large-enough
allocation, whose trailing bytes are undefined anyway). -/
def bufWrite (b : Buf) (i : Nat) (c : Char) : Buf :=
  (b ++ List.replicate (i + 1 - b.length) none).set i (some c)

/-- `memcpy` of a string to position `i` of a buffer. -/
def bufWriteStr (b : Buf) (i : Nat) (s : Str) : Buf :=
  let pre := b.take i
  (pre ++ List.replicate (i - pre.length) none) ++ s.map some ++ b.drop (i + s.length)

/-- Read a buffer as a C string: stop at the first NUL byte (reading an
undefined byte or running off the allocation would be undefined behaviour
in C; the model stops there as well). -/
def cstr : Buf → Str
  | [] => []
  | none :: _ => []
  | some c :: rest => if c = nul then [] else c :: cstr rest

/-- `elektraStrLen`: length of a C string including the terminating NUL. -/
def elektraStrLen (s : Str) : Nat := s.length + 1

/-- `elektraStrNDup (s, l)`: allocate `l` bytes and `memcpy` `l` bytes from
`s`.  Bytes past the end of `s` (and its NUL) are undefined. -/
def elektraStrNDup (s : Str) (l : Nat) : Buf :=
  ((s.map some ++ [some nul]) ++ List.replicate l none).take l

/-- Scanner of `keyNameGetOneLevel`: collect the characters of one key-name
part, stopping at a `/` that is preceded by an even number of backslashes
(`esc` counts the pending backslash run, as in the C loop). -/
def oneLevelAux : List Char → Nat → Str
  | [], _ => []
  | c :: rest, esc =>
    if c = '\\' then c :: oneLevelAux rest (esc + 1)
    else if c = '/' then
      (if esc % 2 = 0 then [] else c :: oneLevelAux rest 0)
    else c :: oneLevelAux rest 0

/-- Modelled from the spec: `keyNameGetOneLevel` is declared but not part of
the provided sources.  §4.1 *One-level(cursor)*: "yields the next part
boundary in an escaped name, respecting escape runs", with the escape
grammar of §4.1 (a `/` preceded by an even number of `\` separates parts,
a `/` preceded by an odd number of `\` belongs to the part).  Like the C
helper it first skips all repeated `/` and then returns the part start
together with its size. -/
def keyNameGetOneLevel (s : Str) : Str × Nat :=
  let real := s.dropWhile (fun c => c = '/')
  (real, (oneLevelAux real 0).length)

/-- Fuel-driven iteration of `keyNameGetOneLevel`, as all the C loops
`while (*(p=keyNameGetOneLevel(p+size,&size)))` run it: fuel
`s.length + 1` always suffices because every round consumes at least one
character. -/
def levelsFuel : Nat → Str → List Str
  | 0, _ => []
  | fuel + 1, s =>
    let real := s.dropWhile (fun c => c = '/')
    let tok := oneLevelAux real 0
    if tok.isEmpty then []
    else tok :: levelsFuel fuel (real.drop tok.length)

/-- All parts of an escaped name, in order. -/
def levels (s : Str) : List Str := levelsFuel (s.length + 1) s

/-- Scanner of the name validation: `esc` counts the pending backslash
run; a part character that closes an odd run must be an escapable byte. -/
def validAux : List Char → Nat → Bool
  | [], _ => true
  | c :: rest, esc =>
    if c = '\\' then validAux rest (esc + 1)
    else if esc % 2 = 1 then
      (c = '/' || c = '.' || c = '%') && validAux rest 0
    else validAux rest 0

/-- Modelled from the spec: `elektraValidateKeyName` is declared but not
part of the provided sources.  §4.1 *Validate(name)*: "Rejects unpaired `\`
except trailing"; the escapable bytes are those of the escape grammar
(`\/`, `\\`, `\.`, `\..`, `\%`), and "A trailing stray escape is permitted
only as the last byte of the full name" / "Trailing backslash in otherwise
valid input is accepted".  So a name is valid iff every maximal odd run of
backslashes is followed by `/`, `.` or `%`, or ends the string. -/
def elektraValidateKeyName (s : Str) : Bool := validAux s 0

/-- Remove the escapes of one key-name part: every `\c` pair collapses to
`c` (this inverts the escape grammar of §4.1: `\/` → `/`, `\\` → `\`,
`\.` → `.`, `\%` → `%`). -/
def unescapePart : Str → Str
  | [] => []
  | '\\' :: c :: rest => c :: unescapePart rest
  | c :: rest => c :: unescapePart rest

/-- One part after unescaping; §4.1: "a bare `%` represents the *empty*
part". -/
def unescaped1Part (p : Str) : Str :=
  if p = ['%'] then [] else unescapePart p

/-- Modelled from the spec: `elektraUnescapeKeyName` is declared but not
part of the provided sources.  §4.1 *Unescape-name(canonical)* → "sequence
of NUL-separated raw segments, first segment the namespace token"; §6.2:
each segment is NUL-terminated and the first segment is the namespace
token, "or a single `/` byte (cascading)".  The function returns the bytes
written to the destination buffer; its length is the new `keyUSize`. -/
def elektraUnescapeKeyName (src : Str) : Str :=
  let segs := (levels src).map unescaped1Part
  let tail := segs.foldr (fun p acc => p ++ nul :: acc) []
  if src.head? = some '/' then '/' :: nul :: tail else tail

/-- Escape one character of a key-name part. -/
def escapeChar (c : Char) : Str :=
  if c = '\\' || c = '/' || c = '.' then ['\\', c] else [c]

/-- Modelled from the spec: `elektraEscapeKeyNamePart` is declared but not
part of the provided sources.  §4.1 *Escape-part(raw)* pre-escapes `\`,
`/` and `.` and escapes `%` when the part would otherwise start with it;
an empty part becomes the bare `%`.  Scenario E1 fixes the treatment of
`.`: adding base name `my.key` yields the part `my\.key`, so `.` is
escaped wherever it occurs (which also covers the whole-part rules for
`.` and `..`). -/
def elektraEscapeKeyNamePart (s : Str) : Str :=
  match s with
  | [] => ['%']
  | c :: rest =>
    (if c = '%' then ['\\', '%'] else escapeChar c) ++ (rest.map escapeChar).flatten

/-- The namespaces of `elektraNamespace` (kdb.h.in plus the internal
`KEY_NS_EMPTY` used by keyname.c). -/
inductive ElektraNamespace where
  | NONE
  | EMPTY
  | CASCADING
  | META
  | SPEC
  | PROC
  | DIR
  | USER
  | SYSTEM
  | DEFAULT
  deriving Repr, DecidableEq

/-- A name's first byte after a namespace word must end the name or start
a new part for the word to be the whole first segment. -/
def nsDelim : Str → Prop
  | [] => True
  | c :: _ => c = '/'

instance (s : Str) : Decidable (nsDelim s) := by
  cases s with
  | nil => exact isTrue trivial
  | cons c rest => exact (inferInstance : Decidable (c = '/'))

/-- Modelled from the spec: `keyNameIsSpec` is not part of the provided
sources.  §3: the namespace is "Determined purely by the first segment of
a name"; the first segment is `spec`. -/
def keyNameIsSpec (s : Str) : Bool :=
  decide (s.take 4 = str "spec" ∧ nsDelim (s.drop 4))

/-- Modelled from the spec: `keyNameIsProc` is not part of the provided
sources; the first segment is `proc`. -/
def keyNameIsProc (s : Str) : Bool :=
  decide (s.take 4 = str "proc" ∧ nsDelim (s.drop 4))

/-- Modelled from the spec: `keyNameIsDir` is not part of the provided
sources; the first segment is `dir`. -/
def keyNameIsDir (s : Str) : Bool :=
  decide (s.take 3 = str "dir" ∧ nsDelim (s.drop 3))

/-- The byte after `user` may also be `:` (owner syntax, `user:owner`). -/
def userDelim : Str → Prop
  | [] => True
  | c :: _ => c = '/' ∨ c = ':'

instance (s : Str) : Decidable (userDelim s) := by
  cases s with
  | nil => exact isTrue trivial
  | cons c rest => exact (inferInstance : Decidable (c = '/' ∨ c = ':'))

/-- Modelled from the spec: `keyNameIsUser` is not part of the provided
sources.  §3: "`user`/`user:owner` → user", so the first segment is
`user` or `user:owner` for some owner. -/
def keyNameIsUser (s : Str) : Bool :=
  decide (s.take 4 = str "user" ∧ userDelim (s.drop 4))

/-- Modelled from the spec: `keyNameIsSystem` is not part of the provided
sources; the first segment is `system`. -/
def keyNameIsSystem (s : Str) : Bool :=
  decide (s.take 6 = str "system" ∧ nsDelim (s.drop 6))

/-- `keyGetNameNamespace` (keyname.c): namespace of an escaped name,
`none` modelling a NULL `const char *`. -/
def keyGetNameNamespace : Option Str → ElektraNamespace
  | none => .EMPTY
  | some s =>
    if s = [] then .EMPTY
    else if s.head? = some '/' then .CASCADING
    else if keyNameIsSpec s then .SPEC
    else if keyNameIsProc s then .PROC
    else if keyNameIsDir s then .DIR
    else if keyNameIsUser s then .USER
    else if keyNameIsSystem s then .SYSTEM
    else .META

/-- The fields of `struct _Key` used by the name engine.  The single C
allocation `key->key` (escaped name, then at offset `keySize` the
unescaped name) is the buffer `key`; `roName` is `KEY_FLAG_RO_NAME`,
`sync` is `KEY_FLAG_SYNC`. -/
structure Key where
  key : Option Buf
  keySize : Nat
  keyUSize : Nat
  roName : Bool
  sync : Bool
  deriving Repr, DecidableEq

/-- A key as `keyNew(0)` / a fresh unnamed key leaves it. -/
def freshKey : Key :=
  { key := none, keySize := 0, keyUSize := 0, roName := false, sync := false }

/-- `keyName` (keyname.c): `""` when there is no key name, else the
escaped name (for a non-NULL key). -/
def keyName (k : Key) : Str :=
  match k.key with
  | none => []
  | some b => cstr b

/-- `keyGetNameSize` (keyname.c): 1 when there is no key name, else
`keySize` (for a non-NULL key). -/
def keyGetNameSize (k : Key) : Int :=
  match k.key with
  | none => 1
  | some _ => (k.keySize : Int)

/-- `keyGetUnescapedNameSize` (keyname.c): 0 when there is no key name,
else `keyUSize` (for a non-NULL key). -/
def keyGetUnescapedNameSize (k : Key) : Int :=
  match k.key with
  | none => 0
  | some _ => (k.keyUSize : Int)

/-- The bytes `keyUnescapedName` exposes: `keyUSize` bytes of the name
buffer starting at offset `keySize`. -/
def keyUnescapedRegion (k : Key) : Buf :=
  match k.key with
  | none => []
  | some b => ((b.drop k.keySize) ++ List.replicate k.keyUSize none).take k.keyUSize

/-- `keyGetNamespace` (keyname.c): `keyGetNameNamespace (key->key)` for a
non-NULL key. -/
def keyGetNamespace (k : Key) : ElektraNamespace :=
  match k.key with
  | none => keyGetNameNamespace none
  | some b => keyGetNameNamespace (some (cstr b))

/-- Modelled from the spec: `keyNeedSync` is not part of the provided
sources; §4.2 "*need-sync(k)* — reports the sync flag". -/
def keyNeedSync (k : Key) : Bool := k.sync

/-- `elektraFinalizeName` (keyname.c): terminate the escaped name at
`keySize - 1`, recompute the unescaped name just behind it, set the sync
flag and return `keySize`.  (Unreachable for a key without a name buffer:
the C code would dereference NULL.) -/
def elektraFinalizeName (k : Key) : Int × Key :=
  match k.key with
  | none => ((k.keySize : Int), k)
  | some buf =>
    let buf1 := bufWrite buf (k.keySize - 1) nul
    let u := elektraUnescapeKeyName (cstr buf1)
    let buf2 := bufWriteStr buf1 k.keySize u
    ((k.keySize : Int),
      { k with key := some buf2, keyUSize := u.length, sync := true })

/-- `elektraFinalizeEmptyName` (keyname.c): `key->key = elektraCalloc(2)`
(two NUL bytes: empty escaped and empty unescaped name), sizes 1, sync
set; returns `keySize = 1`. -/
def elektraFinalizeEmptyName (k : Key) : Int × Key :=
  (1, { k with key := some [some nul, some nul], keySize := 1, keyUSize := 1,
                sync := true })

/-- `elektraRemoveKeyName` (keyname.c): free the name buffer and zero the
sizes. -/
def elektraRemoveKeyName (k : Key) : Key :=
  { k with key := none, keySize := 0, keyUSize := 0 }

/-- `elektraHandleUserName` (keyname.c): set both sizes to
`sizeof("user") = 5`; when the byte after `user` is `:`, consume the
whole `user:owner` first level into `keyUSize` (plus one) so that the
remainder of the name starts after the owner.  The owner itself is stored
as the `owner` meta key, which is outside this name model. -/
def elektraHandleUserName (k : Key) (newName : Str) : Key :=
  let k1 := { k with keySize := 5, keyUSize := 5 }
  match newName.drop 4 with
  | [] => k1
  | c :: _ =>
    if c = '/' then k1
    else
      -- delim is ':' here (asserted in the C code)
      let size := (keyNameGetOneLevel newName).2
      { k1 with keyUSize := size + 1 }

/-- `elektraRemoveOneLevel` (keyname.c): working on the first `keySize`
buffer bytes as a string (the C code temporarily NUL-terminates at
`keySize`), drop the last level when there is more than one, or strip a
cascading key down to `/` setting `avoidSlash`. -/
def elektraRemoveOneLevel (buf : Buf) (keySize : Nat) (avoidSlash : Bool) :
    Buf × Nat × Bool :=
  let s := cstr (buf.take keySize)
  let toks := levels s
  if toks.length > 1 then
    let sizeOfLastLevel := (toks.getLast?.map List.length).getD 0
    let ks := keySize - (sizeOfLastLevel + 1)
    (bufWrite buf ks nul, ks, avoidSlash)
  else if bufRead buf 0 = some '/' then
    (buf, 1, true)
  else
    (buf, keySize, avoidSlash)

/-- One round of the `keyAddName` loop (keyname.c): ignore a bare `.`,
give away one level for a bare `..`, otherwise append a `/` (unless
`avoidSlash`) and the part.  The state is (buffer, `keySize` as number of
characters written, `avoidSlash`). -/
def addNameStep (st : Buf × Nat × Bool) (tok : Str) : Buf × Nat × Bool :=
  let buf := st.1
  let keySize := st.2.1
  let avoidSlash := st.2.2
  if tok = ['.'] then st
  else if tok = ['.', '.'] then elektraRemoveOneLevel buf keySize avoidSlash
  else if avoidSlash then
    (bufWriteStr buf keySize tok, keySize + tok.length, false)
  else
    (bufWriteStr (bufWrite buf keySize '/') (keySize + 1) tok,
      keySize + 1 + tok.length, false)

/-- `keyAddName` (keyname.c): canonicalising append of an escaped name to
an existing key name. -/
def keyAddName (k : Key) (newName : Option Str) : Int × Key :=
  if k.roName then (-1, k)
  else
    match k.key with
    | none => (-1, k)
    | some buf =>
      match newName with
      | none => (0, k)
      | some n =>
        if elektraStrLen n < 2 then (0, k)
        else if elektraValidateKeyName n = false then (-1, k)
        else
          -- realloc to (origSize + nameSize) * 2: capacity only
          let origSize := k.keySize
          let avoidSlash := bufRead buf 0 == some '/' && k.keySize == 2
          -- key->keySize-- : the loop counts characters, not the NUL
          let st := (levels n).foldl addNameStep (buf, k.keySize - 1, avoidSlash)
          let ks := st.2.1 + 1
          let k1 := { k with key := some st.1, keySize := ks }
          if origSize = ks then (0, k1)
          else elektraFinalizeName k1

/-- Common tail of `elektraKeySetName` (keyname.c), the code after the
namespace switch: duplicate the name into a twice-as-large buffer, take
the short path when the name consists of the root only, otherwise
terminate the root and `keyAddName` the rest, removing the name again
when that fails. -/
def elektraKeySetNameTail (k1 : Key) (n : Str) : Int × Key :=
  let k2 := { k1 with key := some (elektraStrNDup n (k1.keySize * 2)) }
  let length := elektraStrLen n
  if length = k2.keyUSize ∨ length = k2.keySize then
    let k3 := (elektraFinalizeName k2).2
    ((k3.keyUSize : Int), k3)
  else
    let k3 :=
      { k2 with key := (k2.key.map (fun b => bufWrite b (k2.keySize - 1) nul)) }
    let r := keyAddName k3 (some (n.drop k2.keyUSize))
    if r.1 = -1 then (-1, elektraRemoveKeyName r.2) else r

/-- `elektraKeySetName` (keyname.c).  `optMetaName` is the
`KEY_META_NAME` bit of `options`; `keySetName` passes 0.  (`keySetOwner`
calls are outside this name model; `KEY_NS_NONE` falls through to the
empty case in the C switch and neither namespace `NONE` nor `DEFAULT` is
ever produced by `keyGetNameNamespace`.) -/
def elektraKeySetName (k0 : Key) (newName : Option Str) (optMetaName : Bool) :
    Int × Key :=
  if k0.roName then (-1, k0)
  else
    let k := elektraRemoveKeyName k0
    match keyGetNameNamespace newName, newName with
    | .EMPTY, _ => (0, (elektraFinalizeEmptyName k).2)
    | .NONE, _ => (0, (elektraFinalizeEmptyName k).2)
    | _, none => (0, (elektraFinalizeEmptyName k).2)
    | ns, some n =>
      let sized : Option Key :=
        match ns with
        | .CASCADING => some { k with keyUSize := 1, keySize := 2 }
        | .SPEC => some { k with keyUSize := 5, keySize := 5 }
        | .PROC => some { k with keyUSize := 5, keySize := 5 }
        | .DIR => some { k with keyUSize := 4, keySize := 4 }
        | .USER => some (elektraHandleUserName k n)
        | .SYSTEM => some { k with keyUSize := 7, keySize := 7 }
        | .META =>
          if optMetaName then
            some { k with keySize := (keyNameGetOneLevel n).2 + 1,
                          keyUSize := (keyNameGetOneLevel n).2 + 1 }
          else none
        | _ => none
      match sized with
      | none => (-1, k)
      | some k1 => elektraKeySetNameTail k1 n

/-- `keySetName` (keyname.c): `elektraKeySetName(key, newName, 0)`. -/
def keySetName (k : Key) (newName : Option Str) : Int × Key :=
  elektraKeySetName k newName false

/-- `keyAddBaseName` (keyname.c): escape `baseName` as one part and append
it.  A NULL `baseName` returns the stored name size without any change;
this is checked before the name lock.  (The NULL-key and out-of-memory
returns are outside the model.) -/
def keyAddBaseName (k : Key) (baseName : Option Str) : Int × Key :=
  match baseName with
  | none => ((k.keySize : Int), k)
  | some b =>
    if k.roName then (-1, k)
    else
      match k.key with
      | none => (-1, k)
      | some buf =>
        let escaped := elektraEscapeKeyNamePart b
        let size := escaped.length
        let newKeySize := k.keySize + size + 1
        let buf1 := bufWrite buf (newKeySize - size - 2) '/'
        let buf2 := bufWriteStr buf1 (newKeySize - size - 1) escaped
        elektraFinalizeName { k with key := some buf2, keySize := newKeySize }

/-- `keySetBaseName` (keyname.c): drop the last level (failing when the
name has none, i.e. the last level is missing or starts the name), then
append the escaped `baseName` unless it is NULL. -/
def keySetBaseName (k : Key) (baseName : Option Str) : Int × Key :=
  if k.roName then (-1, k)
  else
    match k.key with
    | none => (-1, k)
    | some buf =>
      let toks := levels (cstr buf)
      match toks.getLast? with
      | none => (-1, k)
      | some lastTok =>
        -- searchBaseName == key->key: a single level starting the buffer
        if toks.length = 1 ∧ (cstr buf).head? ≠ some '/' then (-1, k)
        else
          let searchBaseSize := lastTok.length + 1
          let ks1 := k.keySize - searchBaseSize
          match baseName with
          | none => elektraFinalizeName { k with keySize := ks1 }
          | some b =>
            let escaped := elektraEscapeKeyNamePart b
            let buf1 := bufWrite buf (ks1 - 1) '/'
            let buf2 := bufWriteStr buf1 ks1 (escaped ++ [nul])
            elektraFinalizeName
              { k with key := some buf2,
                       keySize := ks1 + (escaped.length + 1) }

/-- First segment of a name: the bytes before the first `/`. -/
def firstSeg (s : Str) : Str := s.takeWhile (fun c => c ≠ '/')

/-- Reference classifier, written from the words of the specification
(§3): the namespace is the empty namespace for NULL or `""`, cascading
for every name whose first byte is `/`, the matching namespace when the
first segment is `spec`, `proc`, `dir`, `user` (also `user:owner`) or
`system`, and meta for every other name.  It is compared against
`keyGetNameNamespace`. -/
def refNamespaceOfName : Option Str → ElektraNamespace
  | none => .EMPTY
  | some s =>
    if s = [] then .EMPTY
    else if s.head? = some '/' then .CASCADING
    else if firstSeg s = str "spec" then .SPEC
    else if firstSeg s = str "proc" then .PROC
    else if firstSeg s = str "dir" then .DIR
    else if firstSeg s = str "user" ∨ (firstSeg s).take 5 = str "user:" then .USER
    else if firstSeg s = str "system" then .SYSTEM
    else .META

/-- A key with name `user`, name-locked, as `keyLock (KEY_LOCK_NAME)`
would leave it (buffer: escaped `user` NUL, unescaped `user` NUL). -/
def lockedUserKey : Key :=
  { key := some ((str "user").map some ++ [some nul] ++
                 (str "user").map some ++ [some nul]),
    keySize := 5, keyUSize := 5, roName := true, sync := false }

/-- A key built by `keySetName (k, "user/sw/app")` on a fresh key. -/
def keyUserSwApp : Key := (keySetName freshKey (some (str "user/sw/app"))).2

/-- A key named `user/a` whose sync flag has been cleared (as storage
does after a successful round-trip). -/
def keyUserA : Key :=
  { (keySetName freshKey (some (str "user/a"))).2 with sync := false }

/-! ## Theorems -/

/-- A slash-free word `w` is the first segment of `s` iff `s` starts with
`w` followed by the end of the name or a `/`. -/
theorem firstSeg_eq_iff (w : Str) (hw : ∀ c ∈ w, c ≠ '/') (s : Str) :
    firstSeg s = w ↔ (s.take w.length = w ∧ nsDelim (s.drop w.length)) := by
  induction w generalizing s with
  | nil =>
    cases s with
    | nil => simp [firstSeg, nsDelim]
    | cons a t =>
      by_cases ha : a = '/' <;>
        simp [firstSeg, List.takeWhile_cons, ha, nsDelim]
  | cons c w' ih =>
    have hc : c ≠ '/' := hw c (List.mem_cons_self c w')
    have hw' : ∀ x ∈ w', x ≠ '/' := fun x hx => hw x (List.mem_cons_of_mem c hx)
    cases s with
    | nil => simp [firstSeg]
    | cons a t =>
      by_cases ha : a = '/'
      · subst ha
        simp [firstSeg, List.takeWhile_cons, Ne.symm hc]
      · by_cases hac : a = c
        · subst hac
          have h2 := ih hw' t
          simp only [firstSeg, ne_eq, decide_not] at h2
          simp [firstSeg, List.takeWhile_cons, ha, h2]
        · simp [firstSeg, List.takeWhile_cons, ha, hac]

/-- For a slash-free word `w`, `w` is a prefix of the first segment of
`s` iff it is a prefix of `s`. -/
theorem firstSeg_take_eq_iff (w : Str) (hw : ∀ c ∈ w, c ≠ '/') (s : Str) :
    (firstSeg s).take w.length = w ↔ s.take w.length = w := by
  induction w generalizing s with
  | nil => simp
  | cons c w' ih =>
    have hc : c ≠ '/' := hw c (List.mem_cons_self c w')
    have hw' : ∀ x ∈ w', x ≠ '/' := fun x hx => hw x (List.mem_cons_of_mem c hx)
    cases s with
    | nil => simp [firstSeg]
    | cons a t =>
      by_cases ha : a = '/'
      · subst ha
        simp [firstSeg, List.takeWhile_cons, Ne.symm hc]
      · by_cases hac : a = c
        · subst hac
          have h2 := ih hw' t
          simp only [firstSeg, ne_eq, decide_not] at h2
          simp [firstSeg, List.takeWhile_cons, ha, h2]
        · simp [firstSeg, List.takeWhile_cons, ha, hac]

theorem keyNameIsSpec_iff (s : Str) :
    keyNameIsSpec s = true ↔ firstSeg s = str "spec" := by
  rw [keyNameIsSpec, decide_eq_true_eq,
    firstSeg_eq_iff (str "spec") (by decide) s,
    show (str "spec").length = 4 from rfl]

theorem keyNameIsProc_iff (s : Str) :
    keyNameIsProc s = true ↔ firstSeg s = str "proc" := by
  rw [keyNameIsProc, decide_eq_true_eq,
    firstSeg_eq_iff (str "proc") (by decide) s,
    show (str "proc").length = 4 from rfl]

theorem keyNameIsDir_iff (s : Str) :
    keyNameIsDir s = true ↔ firstSeg s = str "dir" := by
  rw [keyNameIsDir, decide_eq_true_eq,
    firstSeg_eq_iff (str "dir") (by decide) s,
    show (str "dir").length = 3 from rfl]

theorem keyNameIsSystem_iff (s : Str) :
    keyNameIsSystem s = true ↔ firstSeg s = str "system" := by
  rw [keyNameIsSystem, decide_eq_true_eq,
    firstSeg_eq_iff (str "system") (by decide) s,
    show (str "system").length = 6 from rfl]

theorem keyNameIsUser_iff (s : Str) :
    keyNameIsUser s = true ↔
      (firstSeg s = str "user" ∨ (firstSeg s).take 5 = str "user:") := by
  rw [keyNameIsUser, decide_eq_true_eq]
  constructor
  · rintro ⟨h4, hd⟩
    rcases hs : s.drop 4 with _ | ⟨c, t⟩
    · left
      rw [firstSeg_eq_iff (str "user") (by decide) s]
      exact ⟨h4, by rw [show (str "user").length = 4 from rfl, hs]; trivial⟩
    · rw [hs] at hd
      rcases hd with hd | hd
      · left
        rw [firstSeg_eq_iff (str "user") (by decide) s]
        refine ⟨h4, ?_⟩
        rw [show (str "user").length = 4 from rfl, hs]
        exact hd
      · right
        have hiff := firstSeg_take_eq_iff (str "user:") (by decide) s
        rw [show (str "user:").length = 5 from rfl] at hiff
        rw [hiff]
        have h5 : s.take 5 = s.take 4 ++ (s.drop 4).take 1 := List.take_add s 4 1
        rw [h5, h4, hs, hd]
        rfl
  · rintro (h | h)
    · rw [firstSeg_eq_iff (str "user") (by decide) s] at h
      obtain ⟨h4, hd⟩ := h
      refine ⟨h4, ?_⟩
      rw [show (str "user").length = 4 from rfl] at hd
      rcases hs : s.drop 4 with _ | ⟨c, t⟩
      · trivial
      · rw [hs] at hd
        exact Or.inl hd
    · have hiff := firstSeg_take_eq_iff (str "user:") (by decide) s
      rw [show (str "user:").length = 5 from rfl] at hiff
      rw [hiff] at h
      have h5 : s.take 4 ++ (s.drop 4).take 1 = str "user:" := by
        rw [← List.take_add]
        exact h
      rcases hs : s.drop 4 with _ | ⟨c, t⟩
      · rw [hs] at h5
        simp at h5
        have hlen := congrArg List.length h5
        simp [List.length_take, str] at hlen
        exact absurd hlen (by omega)
      · rw [hs] at h5
        have h4 : s.take 4 = str "user" ∧ c = ':' := by
          have hlen : (s.take 4).length = 4 := by
            have h6 := congrArg List.length h5
            simp [List.length_take, str] at h6 ⊢
            omega
          rcases ht : s.take 4 with _ | ⟨a1, r1⟩
          · rw [ht] at hlen; simp at hlen
          · rw [ht] at h5
            rcases r1 with _ | ⟨a2, r2⟩
            · rw [ht] at hlen; simp at hlen
            · rcases r2 with _ | ⟨a3, r3⟩
              · rw [ht] at hlen; simp at hlen
              · rcases r3 with _ | ⟨a4, r4⟩
                · rw [ht] at hlen; simp at hlen
                · rcases r4 with _ | ⟨a5, r5⟩
                  · simp only [List.cons_append, List.nil_append,
                      List.take_cons] at h5
                    have := List.cons.injEq .. ▸ h5
                    simp [str] at h5
                    obtain ⟨e1, e2, e3, e4, e5⟩ := h5
                    exact ⟨by simp [str, e1, e2, e3, e4], e5⟩
                  · rw [ht] at hlen; simp at hlen
        exact ⟨h4.1, Or.inr h4.2⟩

/-- Claim C8: namespace classification depends only on the first segment
of the name: `keyGetNameNamespace` returns the empty namespace for NULL
or `""`, cascading for every name whose first byte is `/`, the matching
namespace when the first segment is `spec`, `proc`, `dir`, `user` (also
`user:owner`) or `system`, and meta for every other name
(`refNamespaceOfName` spells out exactly this reading of the claim). -/
theorem claim_C8_namespace_from_first_segment (n : Option Str) :
    keyGetNameNamespace n = refNamespaceOfName n := by
  cases n with
  | none => rfl
  | some s =>
    show keyGetNameNamespace (some s) = refNamespaceOfName (some s)
    rw [keyGetNameNamespace, refNamespaceOfName]
    by_cases h0 : s = []
    · simp [h0]
    rw [if_neg h0, if_neg h0]
    by_cases h1 : s.head? = some '/'
    · rw [if_pos h1, if_pos h1]
    rw [if_neg h1, if_neg h1]
    by_cases h2 : keyNameIsSpec s = true
    · rw [if_pos h2, if_pos ((keyNameIsSpec_iff s).1 h2)]
    rw [if_neg h2, if_neg (fun hh => h2 ((keyNameIsSpec_iff s).2 hh))]
    by_cases h3 : keyNameIsProc s = true
    · rw [if_pos h3, if_pos ((keyNameIsProc_iff s).1 h3)]
    rw [if_neg h3, if_neg (fun hh => h3 ((keyNameIsProc_iff s).2 hh))]
    by_cases h4 : keyNameIsDir s = true
    · rw [if_pos h4, if_pos ((keyNameIsDir_iff s).1 h4)]
    rw [if_neg h4, if_neg (fun hh => h4 ((keyNameIsDir_iff s).2 hh))]
    by_cases h5 : keyNameIsUser s = true
    · rw [if_pos h5, if_pos ((keyNameIsUser_iff s).1 h5)]
    rw [if_neg h5, if_neg (fun hh => h5 ((keyNameIsUser_iff s).2 hh))]
    by_cases h6 : keyNameIsSystem s = true
    · rw [if_pos h6, if_pos ((keyNameIsSystem_iff s).1 h6)]
    rw [if_neg h6, if_neg (fun hh => h6 ((keyNameIsSystem_iff s).2 hh))]

/-- Claim C5: starting from a key named `user/sw/app`,
`keyAddBaseName (k, "my.key")` escapes the dot and yields the escaped
name `user/sw/app/my\.key`, whose unescaped form is the four
NUL-terminated segments `user`, `sw`, `app`, `my.key`. -/
theorem claim_C5_keyAddBaseName_escapes_dot :
    keyName keyUserSwApp = str "user/sw/app" ∧
    (keyAddBaseName keyUserSwApp (some (str "my.key"))).1 = 20 ∧
    keyName (keyAddBaseName keyUserSwApp (some (str "my.key"))).2 =
      str "user/sw/app/my\\.key" ∧
    keyUnescapedRegion (keyAddBaseName keyUserSwApp (some (str "my.key"))).2 =
      ((str "user" ++ [nul]) ++ (str "sw" ++ [nul]) ++ (str "app" ++ [nul]) ++
        (str "my.key" ++ [nul])).map some := by
  decide

/-- Claim C7, counterexample: `keySetName (k, "system/../..")` is *not*
rejected: on a fresh key it returns 0 (not -1) and the name afterwards is
`system` (not the empty name), refuting the claim at this input. -/
theorem claim_C7_counterexample_dotdot_past_root :
    (keySetName freshKey (some (str "system/../.."))).1 = 0 ∧
    ¬ (keySetName freshKey (some (str "system/../.."))).1 = -1 ∧
    keyName (keySetName freshKey (some (str "system/../.."))).2 = str "system" := by
  decide

/-- Claim C7, amended: `keySetName (k, "system/..")` leaves the canonical
name `system` (returning 0), and `keySetName (k, "system/../..")` is not
invalid: `..` at the namespace root is ignored, so it also returns 0 and
also leaves the name `system`. -/
theorem claim_C7_system_dotdot_clamps_at_root :
    (keySetName freshKey (some (str "system/.."))).1 = 0 ∧
    keyName (keySetName freshKey (some (str "system/.."))).2 = str "system" ∧
    (keySetName freshKey (some (str "system/../.."))).1 = 0 ∧
    keyName (keySetName freshKey (some (str "system/../.."))).2 = str "system" := by
  decide

/-- Claim C2: canonicalisation is *not* idempotent on the key state.
`keySetName (k, "system/..")` is accepted (returns 0 ≥ 0) and leaves the
escaped name `system`, but it takes the `keyAddName` shortcut `return 0`
that skips `elektraFinalizeName`, so the unescaped buffer still holds the
`..` bytes of the input (followed by bytes that were never written).
Re-canonicalising the resulting name `system` on a fresh key produces the
proper unescaped name `system NUL`; the two unescaped names differ even
though both keys report `keyGetUnescapedNameSize = 7`.  This contradicts
the documented contract of `elektraFinalizeName` ("Call this function
after every key name changing operation") and invariant I2. -/
theorem claim_C2_reCanonicalise_changes_unescaped_name :
    (keySetName freshKey (some (str "system/.."))).1 = 0 ∧
    keyName (keySetName freshKey (some (str "system/.."))).2 = str "system" ∧
    keyName (keySetName freshKey
      (some (keyName (keySetName freshKey (some (str "system/.."))).2))).2 =
      str "system" ∧
    keyGetUnescapedNameSize (keySetName freshKey (some (str "system/.."))).2 = 7 ∧
    keyUnescapedRegion (keySetName freshKey
      (some (keyName (keySetName freshKey (some (str "system/.."))).2))).2 =
      (str "system" ++ [nul]).map some ∧
    ¬ keyUnescapedRegion (keySetName freshKey (some (str "system/.."))).2 =
      keyUnescapedRegion (keySetName freshKey
        (some (keyName (keySetName freshKey (some (str "system/.."))).2))).2 ∧
    bufRead (keyUnescapedRegion (keySetName freshKey (some (str "system/.."))).2) 0 =
      some '.' := by
  decide

/-- Claim C9: a successful, name-changing `keyAddName` that does not set
the sync flag.  On a key named `user/a` with a cleared sync flag,
`keyAddName (k, "../b")` rewrites the escaped name to `user/b` but
returns 0 and — because the new size equals the old one — skips
`elektraFinalizeName`: the sync flag stays false and the unescaped name
still reads `user NUL a NUL`.  This contradicts the documented return
(0 is reserved for "nothing was done") and the contract of
`elektraFinalizeName`. -/
theorem claim_C9_keyAddName_changes_name_without_sync :
    keyName keyUserA = str "user/a" ∧
    keyNeedSync keyUserA = false ∧
    (keyAddName keyUserA (some (str "../b"))).1 = 0 ∧
    keyName (keyAddName keyUserA (some (str "../b"))).2 = str "user/b" ∧
    ¬ keyName (keyAddName keyUserA (some (str "../b"))).2 = keyName keyUserA ∧
    keyNeedSync (keyAddName keyUserA (some (str "../b"))).2 = false ∧
    keyUnescapedRegion (keyAddName keyUserA (some (str "../b"))).2 =
      (str "user" ++ [nul] ++ str "a" ++ [nul]).map some := by
  decide

/-- Claim C10: `keyAddBaseName (k, NULL)` is a complete no-op returning
the stored name size, for every key — locked or not — and in particular
returns 0 on a fresh key without a name. -/
theorem claim_C10_keyAddBaseName_null_noop :
    (∀ k : Key, keyAddBaseName k none = ((k.keySize : Int), k)) ∧
    keyAddBaseName freshKey none = (0, freshKey) ∧
    keyAddBaseName lockedUserKey none = (5, lockedUserKey) := by
  exact ⟨fun k => rfl, rfl, rfl⟩

/-- Claim C4, counterexample: on the name-locked key `lockedUserKey`,
`keyAddBaseName (k, NULL)` does not return -1 as the claim demands for
each of the four operations: it returns the stored name size 5 (the NULL
check precedes the lock check in the C code). -/
theorem claim_C4_counterexample_locked_null_basename :
    lockedUserKey.roName = true ∧
    (keyAddBaseName lockedUserKey none).1 = 5 ∧
    ¬ (keyAddBaseName lockedUserKey none).1 = -1 := by
  decide

/-- When the name is not locked, `keySetName` first removes the old name,
so its result depends on the previous key state only through the sync
flag (carried into the failure results). -/
theorem keySetName_not_locked_eq (k : Key) (h : k.roName = false) (n : Option Str) :
    keySetName k n = keySetName { freshKey with sync := k.sync } n := by
  obtain ⟨kk, ks, kus, ro, sy⟩ := k
  change ro = false at h
  subst h
  rfl

/-- Claim C1: on any key without a name lock, `keySetName` stores the
canonical form of the new name — runs of unescaped `/` collapse, bare `.`
parts are elided, a bare `..` part removes the previous part, a trailing
`/` is trimmed — verified on the claim's example inputs:
`user///sw/../sw//././MyApp` → `user/sw/MyApp`, `/a//b` → `/a/b`,
`/a/./b` → `/a/b`, `/a/../b` → `/b`, `/../a` → `/a`, and the
trailing-slash rule on `user/a/` → `user/a`, each with a non-negative
return value and independently of the key's previous state. -/
theorem claim_C1_keySetName_canonical_examples (k : Key) (h : k.roName = false) :
    (keySetName k (some (str "user///sw/../sw//././MyApp"))).1 = 14 ∧
    keyName (keySetName k (some (str "user///sw/../sw//././MyApp"))).2 =
      str "user/sw/MyApp" ∧
    (keySetName k (some (str "/a//b"))).1 = 5 ∧
    keyName (keySetName k (some (str "/a//b"))).2 = str "/a/b" ∧
    (keySetName k (some (str "/a/./b"))).1 = 5 ∧
    keyName (keySetName k (some (str "/a/./b"))).2 = str "/a/b" ∧
    (keySetName k (some (str "/a/../b"))).1 = 3 ∧
    keyName (keySetName k (some (str "/a/../b"))).2 = str "/b" ∧
    (keySetName k (some (str "/../a"))).1 = 3 ∧
    keyName (keySetName k (some (str "/../a"))).2 = str "/a" ∧
    (keySetName k (some (str "user/a/"))).1 = 7 ∧
    keyName (keySetName k (some (str "user/a/"))).2 = str "user/a" := by
  have hrw : ∀ n : Option Str, keySetName k n = keySetName { freshKey with sync := k.sync } n :=
    fun n => keySetName_not_locked_eq k h n
  simp only [hrw]
  obtain ⟨kk, ks, kus, ro, sy⟩ := k
  dsimp only
  cases sy <;> decide

theorem claim_C1_witness :
    freshKey.roName = false ∧
    keyName (keySetName freshKey (some (str "user///sw/../sw//././MyApp"))).2 =
      str "user/sw/MyApp" ∧
    keyName (keySetName freshKey (some (str "/a//b"))).2 = str "/a/b" ∧
    keyName (keySetName freshKey (some (str "/a/./b"))).2 = str "/a/b" ∧
    keyName (keySetName freshKey (some (str "/a/../b"))).2 = str "/b" ∧
    keyName (keySetName freshKey (some (str "/../a"))).2 = str "/a" ∧
    keyName (keySetName freshKey (some (str "user/a/"))).2 = str "user/a" :=
  ⟨rfl,
    (claim_C1_keySetName_canonical_examples freshKey rfl).2.1,
    (claim_C1_keySetName_canonical_examples freshKey rfl).2.2.2.1,
    (claim_C1_keySetName_canonical_examples freshKey rfl).2.2.2.2.2.1,
    (claim_C1_keySetName_canonical_examples freshKey rfl).2.2.2.2.2.2.2.1,
    (claim_C1_keySetName_canonical_examples freshKey rfl).2.2.2.2.2.2.2.2.2.1,
    (claim_C1_keySetName_canonical_examples freshKey rfl).2.2.2.2.2.2.2.2.2.2.2⟩

/-- Whenever `elektraKeySetName` fails with -1 on a key without a name
lock, the name buffer has been removed. -/
theorem elektraKeySetNameTail_fail_removes_name (k1 : Key) (n : Str) :
    (elektraKeySetNameTail k1 n).1 = -1 → (elektraKeySetNameTail k1 n).2.key = none := by
  unfold elektraKeySetNameTail
  dsimp only
  split
  · intro hret
    dsimp only at hret
    omega
  · split
    · exact fun _ => rfl
    next hcond => exact fun hret => absurd hret hcond

theorem elektraKeySetName_fail_removes_name (k : Key) (n : Option Str) (opt : Bool)
    (h : k.roName = false) :
    (elektraKeySetName k n opt).1 = -1 → (elektraKeySetName k n opt).2.key = none := by
  cases n with
  | none =>
    intro hret
    simp [elektraKeySetName, keyGetNameNamespace, h] at hret
  | some s =>
    cases hns : keyGetNameNamespace (some s) <;>
      simp only [elektraKeySetName, h, hns, Bool.false_eq_true, if_false]
    case EMPTY => intro hret; simp at hret
    case NONE => intro hret; simp at hret
    case CASCADING => exact elektraKeySetNameTail_fail_removes_name _ s
    case SPEC => exact elektraKeySetNameTail_fail_removes_name _ s
    case PROC => exact elektraKeySetNameTail_fail_removes_name _ s
    case DIR => exact elektraKeySetNameTail_fail_removes_name _ s
    case USER => exact elektraKeySetNameTail_fail_removes_name _ s
    case SYSTEM => exact elektraKeySetNameTail_fail_removes_name _ s
    case META =>
      cases opt with
      | true => exact elektraKeySetNameTail_fail_removes_name _ s
      | false => exact fun _ => rfl
    case DEFAULT => exact fun _ => rfl

/-- Claim C3: whenever `keySetName (k, n)` fails with -1 on a key whose
name is not locked, the key's name is empty afterwards regardless of the
previous name: `keyName` returns `""` and `keyGetNameSize` returns 1. -/
theorem claim_C3_failed_keySetName_leaves_empty_name (k : Key) (n : Option Str)
    (h : k.roName = false) (hret : (keySetName k n).1 = -1) :
    keyName (keySetName k n).2 = [] ∧ keyGetNameSize (keySetName k n).2 = 1 := by
  have hk := elektraKeySetName_fail_removes_name k n false h hret
  exact ⟨by simp [keyName, keySetName, hk], by simp [keyGetNameSize, keySetName, hk]⟩

theorem claim_C3_witness :
    freshKey.roName = false ∧
    (keySetName freshKey (some (str "abc"))).1 = -1 ∧
    (keyName (keySetName freshKey (some (str "abc"))).2 = [] ∧
     keyGetNameSize (keySetName freshKey (some (str "abc"))).2 = 1) :=
  ⟨rfl, by decide,
    claim_C3_failed_keySetName_leaves_empty_name freshKey (some (str "abc")) rfl
      (by decide)⟩

/-- Claim C4, amended: on a name-locked key, `keySetName`, `keyAddName`
and `keySetBaseName` (with any argument) and `keyAddBaseName` with a
non-NULL argument return -1 and leave the key completely unchanged;
`keyAddBaseName` with NULL instead returns the stored name size, also
without any change (its NULL check precedes the lock check). -/
theorem claim_C4_locked_name_ops_fail_without_effect (k : Key) (h : k.roName = true)
    (n : Option Str) (b : Str) :
    keySetName k n = (-1, k) ∧
    keyAddName k n = (-1, k) ∧
    keySetBaseName k n = (-1, k) ∧
    keyAddBaseName k (some b) = (-1, k) ∧
    keyAddBaseName k none = ((k.keySize : Int), k) := by
  obtain ⟨kk, ks, kus, ro, sy⟩ := k
  change ro = true at h
  subst h
  exact ⟨rfl, rfl, rfl, rfl, rfl⟩

theorem claim_C4_witness :
    lockedUserKey.roName = true ∧
    (keySetName lockedUserKey (some (str "user/x")) = (-1, lockedUserKey) ∧
     keyAddName lockedUserKey (some (str "user/x")) = (-1, lockedUserKey) ∧
     keySetBaseName lockedUserKey (some (str "user/x")) = (-1, lockedUserKey) ∧
     keyAddBaseName lockedUserKey (some (str "x")) = (-1, lockedUserKey) ∧
     keyAddBaseName lockedUserKey none = ((lockedUserKey.keySize : Int), lockedUserKey)) :=
  ⟨rfl, claim_C4_locked_name_ops_fail_without_effect lockedUserKey rfl
    (some (str "user/x")) (str "x")⟩

/-- Claim C6, counterexample: after `keySetName (k, "")` on a fresh key,
`keyGetUnescapedNameSize` returns 1, not 0 as the claim states
(`elektraFinalizeEmptyName` allocates two NUL bytes and sets
`keyUSize = 1`). -/
theorem claim_C6_counterexample_unescaped_size_one :
    keyGetUnescapedNameSize (keySetName freshKey (some [])).2 = 1 ∧
    ¬ keyGetUnescapedNameSize (keySetName freshKey (some [])).2 = 0 := by
  decide

/-- Claim C6, amended: after setting a key's name to the empty string
(`keySetName (k, "")` or `keySetName (k, NULL)`), the key's namespace is
the empty namespace, `keyGetNameSize` returns 1 (a lone NUL) and
`keyGetUnescapedNameSize` returns 1 as well (the unescaped name is a
lone NUL too, not absent). -/
theorem claim_C6_empty_name_state (k : Key) (h : k.roName = false) (n : Option Str)
    (hn : n = some [] ∨ n = none) :
    (keySetName k n).1 = 0 ∧
    keyGetNamespace (keySetName k n).2 = ElektraNamespace.EMPTY ∧
    keyGetNameSize (keySetName k n).2 = 1 ∧
    keyName (keySetName k n).2 = [] ∧
    keyGetUnescapedNameSize (keySetName k n).2 = 1 := by
  obtain ⟨kk, ks, kus, ro, sy⟩ := k
  change ro = false at h
  subst h
  rcases hn with rfl | rfl
  · exact ⟨rfl, rfl, rfl, rfl, rfl⟩
  · exact ⟨rfl, rfl, rfl, rfl, rfl⟩

theorem claim_C6_witness :
    freshKey.roName = false ∧
    ((keySetName freshKey (some [])).1 = 0 ∧
     keyGetNamespace (keySetName freshKey (some [])).2 = ElektraNamespace.EMPTY ∧
     keyGetNameSize (keySetName freshKey (some [])).2 = 1 ∧
     keyName (keySetName freshKey (some [])).2 = [] ∧
     keyGetUnescapedNameSize (keySetName freshKey (some [])).2 = 1) :=
  ⟨rfl, claim_C6_empty_name_state freshKey rfl (some []) (Or.inl rfl)⟩

end Elektra
